import Mathlib

/-!
Verification of `pytext/models/embeddings/int_weighted_multi_category_embedding.py`
(`IntWeightedMultiCategoryEmbedding`).

Shallow embedding: tensors become lists of rational vectors (one row per
example), Python dicts become association lists that keep insertion order,
raised exceptions become `Except String`.  The trainable parameters (the
per-feature lookup tables and the MLP weights) are inputs to construction,
matching their role as externally initialised state.

`nn.EmbeddingBag` is an external torch primitive; it is modelled from the
spec's "bucketed lookup-with-bag-reduction" interface (§4.2): per-example
bags are cut out of the flat value list by the offsets, reduced by the
configured mode (`sum` honouring per-sample weights, `mean`, `max`), and an
empty bag yields the zero vector.
-/

set_option autoImplicit false

namespace PytextEmb

/-- A dense vector of rationals (one embedding vector). -/
abbrev Vec := List ℚ

/-- A matrix: one row per example. -/
abbrev Matrix := List Vec

/-- Element-wise addition (zipWith, as tensor `+`). -/
def vecAdd (u v : Vec) : Vec := List.zipWith (· + ·) u v

/-- Element-wise maximum (as tensor `max`). -/
def vecMax (u v : Vec) : Vec := List.zipWith max u v

/-- Multiply every coordinate by a scalar. -/
def vecScale (c : ℚ) (v : Vec) : Vec := v.map (fun x => c * x)

/-- The all-zero vector of a given dimension. -/
def zeroVec (d : Nat) : Vec := List.replicate d 0

/-- First-match association-list lookup (Python `dict.__getitem__` domain). -/
def lookupKey {β : Type} (k : Int) : List (Int × β) → Option β
  | [] => none
  | (k', v) :: rest => if k' = k then some v else lookupKey k rest

/-- Python `dict.get(k, default)`. -/
def lookupD {β : Type} (l : List (Int × β)) (k : Int) (d : β) : β :=
  (lookupKey k l).getD d

/-- `l[a:b]` on a list. -/
def slice {α : Type} (l : List α) (a b : Nat) : List α := (l.drop a).take (b - a)

/-- The `[start, stop)` bounds of each example's bag: bag `i` spans from
`offsets[i]` to `offsets[i+1]`, the last bag runs to the end of the values. -/
def bagBounds (offsets : List Nat) (len : Nat) : List (Nat × Nat) :=
  offsets.zip (offsets.drop 1 ++ [len])

/-- Weighted sum of rows: `Σ wᵢ • rowᵢ` (per-sample weights, `sum` mode). -/
def weightedSum (dim : Nat) (rows : List Vec) (ws : List ℚ) : Vec :=
  (List.zipWith vecScale ws rows).foldl vecAdd (zeroVec dim)

/-- Modelled from the spec: the reduction of one bag of looked-up rows by an
`nn.EmbeddingBag` (external torch primitive, §4.2 of the spec): an empty bag
yields the zero vector for every mode; `sum` is the weighted sum when
per-sample weights are given and the plain sum otherwise; `mean` is the
arithmetic mean; any other mode behaves as plain `sum` (unreachable here:
`embeddingBag` rejects unknown modes first). -/
def bagReduce (mode : String) (dim : Nat) (rows : List Vec) (ws : Option (List ℚ)) : Vec :=
  match rows with
  | [] => zeroVec dim
  | r :: rs =>
    if mode = "max" then rs.foldl vecMax r
    else if mode = "mean" then
      vecScale (1 / ((r :: rs).length : ℚ)) ((r :: rs).foldl vecAdd (zeroVec dim))
    else
      match ws with
      | some w => weightedSum dim (r :: rs) w
      | none => (r :: rs).foldl vecAdd (zeroVec dim)

/-- Modelled from the spec: `nn.EmbeddingBag` applied to already-remapped
indices with offsets (external torch primitive, §4.2): one reduced vector per
offset entry; an unrecognised mode is rejected (torch validates the mode). -/
def embeddingBag (mode : String) (dim : Nat) (table : Nat → Vec)
    (idx : List Nat) (offsets : List Nat) (ws : Option (List ℚ)) :
    Except String Matrix :=
  if mode = "sum" ∨ mode = "mean" ∨ mode = "max" then
    .ok ((bagBounds offsets idx.length).map (fun ab =>
      bagReduce mode dim ((slice idx ab.1 ab.2).map table)
        (ws.map (fun w => slice w ab.1 ab.2))))
  else .error ("mode has to be one of sum, mean or max")

/-- `torch.remainder(feat, buckets)`: remainder with the sign of the (positive)
divisor, i.e. the canonical non-negative modulo. -/
def remap (v : Int) (b : Nat) : Int := v % (b : Int)

/-- One per-feature input of the batch: `(values, offsets, weights)`. -/
structure FeatInput where
  values : List Int
  offsets : List Nat
  weights : List ℚ
  deriving DecidableEq, Repr

/-- The forward input: `Dict[int, Tuple[Tensor, Tensor, Tensor]]`. -/
abbrev Batch := List (Int × FeatInput)

/-- The trainable state handed to construction: one lookup table per feature id
(row index to embedding row) and the MLP stage parameters (weight rows, bias). -/
structure Params where
  tables : Int → Nat → Vec
  mlp : List (Matrix × Vec)

/-- The constructed module state (the attributes `__init__` stores). -/
structure Model where
  embedding_dim : Nat
  weight_scale : ℚ
  features_embedding_bag_mode : List (Int × String)
  pooling_type : String
  mlp_layer_dims : List Nat
  feature_buckets : List (Int × Nat)
  num_intput_features : Nat
  tables : Int → Nat → Vec
  mlp_params : List (Matrix × Vec)

/-- Python truthy-or on an optional string: `embedding_bag_mode or "sum"`
(`None` and the empty string are falsy). -/
def strOrD (o : Option String) (d : String) : String :=
  match o with
  | none => d
  | some s => if s = "" then d else s

/-- `IntWeightedMultiCategoryEmbedding.__init__`: validates the
legacy-vs-explicit configuration conflict, resolves the per-feature embedding
bag modes, and stores the configuration (the `nn.EmbeddingBag` / `nn.Linear`
allocations carry the externally supplied parameters). -/
def init (embedding_dim : Nat) (weight_scale : ℚ)
    (features_embedding_bag_mode : List (Int × String))
    (embedding_bag_mode : Option String) ( ignore_weight : Option Bool)
    (pooling_type : String) (mlp_layer_dims : List Nat)
    (feature_buckets : List (Int × Nat)) (params : Params) :
    Except String Model :=
  if ignore_weight.isSome ∨ embedding_bag_mode.isSome then
    if features_embedding_bag_mode.length = 0 then
      .ok
        { embedding_dim := embedding_dim
          weight_scale := weight_scale
          features_embedding_bag_mode :=
            feature_buckets.map (fun p =>
              (p.1,
                if ignore_weight.getD false then strOrD embedding_bag_mode "sum"
                else "sum"))
          pooling_type := pooling_type
          mlp_layer_dims := mlp_layer_dims
          feature_buckets := feature_buckets
          num_intput_features := feature_buckets.length
          tables := params.tables
          mlp_params := params.mlp }
    else
      .error ("ignore_weight could only be set in old config and couldn't be set together with features_embedding_bag_mode")
  else
    .ok
      { embedding_dim := embedding_dim
        weight_scale := weight_scale
        features_embedding_bag_mode := features_embedding_bag_mode
        pooling_type := pooling_type
        mlp_layer_dims := mlp_layer_dims
        feature_buckets := feature_buckets
        num_intput_features := feature_buckets.length
        tables := params.tables
        mlp_params := params.mlp }

/-- `self.features_embedding_bag_mode.get(k, "sum")`: the reduction mode a
feature id resolves to. -/
def resolvedMode (m : Model) (k : Int) : String :=
  lookupD m.features_embedding_bag_mode k "sum"

/-- `get_output_dim`. -/
def get_output_dim (m : Model) : Except String Nat :=
  match m.mlp_layer_dims.getLast? with
  | some d => .ok d
  | none =>
    if m.pooling_type = "none" then .ok (m.num_intput_features * m.embedding_dim)
    else if m.pooling_type = "mean" then .ok m.embedding_dim
    else if m.pooling_type = "max" then .ok m.embedding_dim
    else .error ("Pooling type " ++ m.pooling_type ++ " is unsupported.")

/-- The loop body of `forward` for one `(feature id, bucket count)` entry:
look the feature up in the batch (a missing key raises), remap its values
modulo the bucket count, run the embedding bag (weights passed only in `sum`
mode), and scale by `weight_scale`. -/
def featureOutput (m : Model) (feats : Batch) (kb : Int × Nat) :
    Except String Matrix :=
  match lookupKey kb.1 feats with
  | none => .error ("KeyError")
  | some fi =>
    let remapped := fi.values.map (fun v => (remap v kb.2).toNat)
    let mode := resolvedMode m kb.1
    (embeddingBag mode m.embedding_dim (m.tables kb.1) remapped fi.offsets
        (if mode = "sum" then some fi.weights else none)).map
      (fun M => M.map (vecScale m.weight_scale))

/-- Sequence a fallible map over a list (the `for` loop accumulating
`embeddings`, stopping at the first raised error). -/
def exceptMap {α β : Type} (f : α → Except String β) : List α → Except String (List β)
  | [] => .ok []
  | a :: as =>
    match f a with
    | .error e => .error e
    | .ok b =>
      match exceptMap f as with
      | .error e => .error e
      | .ok bs => .ok (b :: bs)

/-- The per-feature embeddings, in `feature_buckets` key order. -/
def forwardEmbeddings (m : Model) (feats : Batch) : Except String (List Matrix) :=
  exceptMap (featureOutput m feats) m.feature_buckets

/-- `torch.cat(embeddings, dim=1)`: per-example concatenation of the
per-feature rows, in list order. -/
def catRows (Es : List Matrix) : Matrix :=
  match Es with
  | [] => []
  | M :: _ => (List.range M.length).map (fun i => (Es.map (fun N => N.getD i [])).flatten)

/-- `torch.stack(embeddings, dim=1)` followed by a reduction over the feature
dimension: per example, fold `op` across the stacked per-feature rows. -/
def stackReduce (op : Vec → Vec → Vec) (Es : List Matrix) : Matrix :=
  match Es with
  | [] => []
  | M :: rest =>
    (List.range M.length).map (fun i =>
      rest.foldl (fun acc N => op acc (N.getD i [])) (M.getD i []))

/-- The cross-feature combiner of `forward`: `none` concatenates, `mean`
stacks and sums, `max` stacks and takes the element-wise maximum, anything
else raises; `torch.cat` / `torch.stack` reject an empty tensor list. -/
def combine (pooling : String) (Es : List Matrix) : Except String Matrix :=
  if pooling = "none" then
    match Es with
    | [] => .error ("expected a non-empty TensorList")
    | _ => .ok (catRows Es)
  else if pooling = "mean" then
    match Es with
    | [] => .error ("stack expects a non-empty TensorList")
    | _ => .ok (stackReduce vecAdd Es)
  else if pooling = "max" then
    match Es with
    | [] => .error ("stack expects a non-empty TensorList")
    | _ => .ok (stackReduce vecMax Es)
  else .error ("Pooling type " ++ pooling ++ " is unsupported.")

/-- `ReLU`. -/
def relu (x : ℚ) : ℚ := max x 0

/-- `nn.Linear`: `y = W x + b`, one output per weight row. -/
def linear (W : Matrix) (b : Vec) (x : Vec) : Vec :=
  List.zipWith (fun row bi => (List.zipWith (· * ·) row x).sum + bi) W b

/-- `self.mlp`: the sequence of `Linear`+`ReLU` stages applied to one example
(zero stages is the identity). -/
def mlpApply (stages : List (Matrix × Vec)) (x : Vec) : Vec :=
  stages.foldl (fun v s => (linear s.1 s.2 v).map relu) x

/-- `forward` up to (excluding) the MLP: per-feature embeddings then the
cross-feature combiner. -/
def forwardPre (m : Model) (feats : Batch) : Except String Matrix :=
  match forwardEmbeddings m feats with
  | .error e => .error e
  | .ok Es => combine m.pooling_type Es

/-- `forward`. -/
def forward (m : Model) (feats : Batch) : Except String Matrix :=
  match forwardPre m feats with
  | .error e => .error e
  | .ok C => .ok (C.map (mlpApply m.mlp_params))

/-- Modelled from the spec: "`mean` → element-wise sum (not divided) across
the per-feature vectors" (§4.3) — the spec-side combined vector for one
example, given that example's per-feature vectors. -/
def specCrossFeatureSum (dim : Nat) (vs : List Vec) : Vec :=
  vs.foldl vecAdd (zeroVec dim)

/-! ## Helper lemmas -/

/-- Unfolding a successful construction: the stored fields of the model. -/
theorem init_fields (e : Nat) (w : ℚ) (fm : List (Int × String)) (eb : Option String)
    (iw : Option Bool) (pt : String) (dims : List Nat) (fb : List (Int × Nat))
    (ps : Params) (m : Model)
    (h : init e w fm eb iw pt dims fb ps = .ok m) :
    m.pooling_type = pt ∧ m.mlp_layer_dims = dims ∧ m.embedding_dim = e ∧
    m.num_intput_features = fb.length ∧ m.feature_buckets = fb ∧
    m.weight_scale = w ∧ m.tables = ps.tables ∧ m.mlp_params = ps.mlp ∧
    m.features_embedding_bag_mode =
      (if iw.isSome ∨ eb.isSome then
        fb.map (fun p => (p.1, if iw.getD false then strOrD eb "sum" else "sum"))
      else fm) := by
  unfold init at h
  by_cases h1 : (iw.isSome ∨ eb.isSome : Prop)
  · rw [if_pos h1] at h
    by_cases h2 : fm.length = 0
    · rw [if_pos h2] at h
      cases h
      simp [h1]
    · rw [if_neg h2] at h
      cases h
  · rw [if_neg h1] at h
    cases h
    simp [h1]

/-- Looking a key up after tagging every entry of an association list with a
constant value. -/
theorem lookupKey_map_const {β γ : Type} (k : Int) (l : List (Int × β)) (c : γ) :
    lookupKey k (l.map (fun p => (p.1, c))) = (lookupKey k l).map (fun _ => c) := by
  induction l with
  | nil => rfl
  | cons p rest ih =>
    simp only [List.map_cons, lookupKey]
    by_cases h : p.1 = k
    · simp [h]
    · simp [h, ih]

/-! ## Claims C1 to C5 -/

/-- Parameters with empty tables, for concrete instantiations. -/
def zeroParams : Params := ⟨fun _ _ => [], []⟩

/-- The model `init` builds for the C1 counterexample configuration. -/
def c1model : Model := ⟨32, 1, [], "bogus", [4], [(1, 10)], 1, fun _ _ => [], []⟩

/-- C1 is false as stated: a constructed embedding with the unsupported
cross-feature pooling mode `"bogus"` and the non-empty projection stack `[4]`
answers the output-dimension query with `4` instead of raising, because
`get_output_dim` returns `mlp_layer_dims[-1]` before inspecting
`pooling_type`. -/
theorem C1_counterexample :
    init 32 1 [] none none "bogus" [4] [(1, 10)] zeroParams = .ok c1model ∧
    (c1model.pooling_type ≠ "none" ∧ c1model.pooling_type ≠ "mean" ∧
      c1model.pooling_type ≠ "max") ∧
    c1model.mlp_layer_dims ≠ [] ∧
    get_output_dim c1model = .ok 4 :=
  ⟨rfl, by decide, by decide, rfl⟩

/-- C1 (amended): for every embedding whose cross-feature pooling mode is not
one of `"none"`, `"mean"`, `"max"`, the output-dimension query raises the
unsupported-mode error when the projection stack `mlp_layer_dims` is empty
(with a non-empty stack it returns the stack's last width instead). -/
theorem C1_amended (m : Model)
    (hpt : m.pooling_type ≠ "none" ∧ m.pooling_type ≠ "mean" ∧ m.pooling_type ≠ "max")
    (hdims : m.mlp_layer_dims = []) :
    get_output_dim m = .error ("Pooling type " ++ m.pooling_type ++ " is unsupported.") := by
  obtain ⟨h1, h2, h3⟩ := hpt
  unfold get_output_dim
  rw [hdims]
  simp [h1, h2, h3]

/-- A constructed model with unsupported pooling and no projection stack. -/
def c1emodel : Model := ⟨32, 1, [], "bogus", [], [(1, 10)], 1, fun _ _ => [], []⟩

/-- C1 (amended) at a concrete input: pooling `"bogus"`, empty stack. -/
theorem C1_amended_witness :
    (c1emodel.pooling_type ≠ "none" ∧ c1emodel.pooling_type ≠ "mean" ∧
      c1emodel.pooling_type ≠ "max") ∧
    c1emodel.mlp_layer_dims = [] ∧
    get_output_dim c1emodel = .error ("Pooling type bogus is unsupported.") :=
  ⟨by decide, rfl, C1_amended c1emodel (by decide) rfl⟩

/-- C2: for a constructed embedding with a supported pooling mode,
`get_output_dim` returns the last entry of `mlp_layer_dims` when that list is
non-empty; otherwise it returns `#features * embedding_dim` for pooling
`"none"` and `embedding_dim` for `"mean"` / `"max"` — a function of the
configuration only, no forward call involved. -/
theorem C2_output_dim (e : Nat) (w : ℚ) (fm : List (Int × String)) (eb : Option String)
    (iw : Option Bool) (pt : String) (dims : List Nat) (fb : List (Int × Nat))
    (ps : Params) (m : Model)
    (hinit : init e w fm eb iw pt dims fb ps = .ok m) :
    (∀ d, dims.getLast? = some d → get_output_dim m = .ok d) ∧
    (dims = [] → pt = "none" → get_output_dim m = .ok (fb.length * e)) ∧
    (dims = [] → (pt = "mean" ∨ pt = "max") → get_output_dim m = .ok e) := by
  obtain ⟨hpt, hdims, he, hnum, -, -, -, -, -⟩ :=
    init_fields e w fm eb iw pt dims fb ps m hinit
  refine ⟨?_, ?_, ?_⟩
  · intro d hd
    unfold get_output_dim
    rw [hdims, hd]
  · intro h0 hn
    unfold get_output_dim
    rw [hdims, h0, hpt, hnum, he, hn]
    simp
  · intro h0 hmm
    unfold get_output_dim
    rw [hdims, h0, hpt, he]
    rcases hmm with h | h <;> rw [h] <;> simp

/-- The model of the spec's output-dimension example: projection widths
`[8, 4]`, two features, embedding dimension 16, pooling `"none"`. -/
def c2model : Model := ⟨16, 1, [], "none", [8, 4], [(0, 5), (1, 7)], 2, fun _ _ => [], []⟩

/-- C2 at the spec's concrete example: the reported output dimension is 4,
the last projection width. -/
theorem C2_witness :
    init 16 1 [] none none "none" [8, 4] [(0, 5), (1, 7)] zeroParams = .ok c2model ∧
    get_output_dim c2model = .ok 4 :=
  ⟨rfl, (C2_output_dim 16 1 [] none none "none" [8, 4] [(0, 5), (1, 7)] zeroParams
    c2model rfl).1 4 rfl⟩

/-- C3: construction raises if and only if a legacy field (`ignore_weight` or
`embedding_bag_mode`) is set to a non-`None` value while the explicit mapping
`features_embedding_bag_mode` is non-empty; the only error `__init__` itself
raises is this configuration conflict. -/
theorem C3_conflict_iff (e : Nat) (w : ℚ) (fm : List (Int × String)) (eb : Option String)
    (iw : Option Bool) (pt : String) (dims : List Nat) (fb : List (Int × Nat))
    (ps : Params) :
    (∃ msg, init e w fm eb iw pt dims fb ps = .error msg) ↔
      ((iw.isSome ∨ eb.isSome) ∧ fm ≠ []) := by
  unfold init
  by_cases h1 : (iw.isSome ∨ eb.isSome : Prop)
  · rw [if_pos h1]
    by_cases h2 : fm.length = 0
    · rw [if_pos h2]
      simp [h1, List.length_eq_zero.mp h2]
    · rw [if_neg h2]
      simp only [List.length_eq_zero] at h2
      simp [h1, h2]
  · rw [if_neg h1]
    simp [h1]

/-- C3 at concrete inputs: legacy `ignore_weight=False` (set, hence non-`None`)
together with a non-empty explicit mapping raises. -/
theorem C3_witness :
    ∃ msg, init 2 1 [(1, "max")] none (some false) "none" [] [(1, 10)] zeroParams
      = .error msg :=
  (C3_conflict_iff 2 1 [(1, "max")] none (some false) "none" [] [(1, 10)]
    zeroParams).mpr ⟨Or.inl rfl, by decide⟩

/-- The model `init` builds for the C4 counterexample configuration. -/
def c4model : Model := ⟨2, 1, [(1, "sum")], "none", [], [(1, 10)], 1, fun _ _ => [], []⟩

/-- C4 is false as stated: with the legacy fields `embedding_bag_mode=""` (a
supplied, non-`None` mode) and `ignore_weight=True`, the claim says every
feature gets the legacy global mode `""`, but the code computes
`embedding_bag_mode or "sum"` (Python truthiness), so feature 1 resolves to
`"sum"`. -/
theorem C4_counterexample :
    init 2 1 [] (some "") (some true) "none" [] [(1, 10)] zeroParams = .ok c4model ∧
    resolvedMode c4model 1 = "sum" ∧ ("sum" : String) ≠ "" :=
  ⟨rfl, rfl, by decide⟩

/-- C4 (amended): on a constructed model, the mode a feature id resolves to
(`features_embedding_bag_mode.get(k, "sum")`) is: when a legacy field is
supplied, for ids in `feature_buckets` the legacy global mode if the
ignore-weight flag is `True` (where an unset or empty legacy mode defaults to
`"sum"`), and `"sum"` if the flag is `False` or unset; when no legacy field is
supplied, the explicit mapping's entry, any unmapped id defaulting to
`"sum"`. -/
theorem C4_amended (e : Nat) (w : ℚ) (fm : List (Int × String)) (eb : Option String)
    (iw : Option Bool) (pt : String) (dims : List Nat) (fb : List (Int × Nat))
    (ps : Params) (m : Model)
    (hinit : init e w fm eb iw pt dims fb ps = .ok m) (k : Int) :
    resolvedMode m k =
      if iw.isSome ∨ eb.isSome then
        (if (lookupKey k fb).isSome then
          (if iw.getD false then strOrD eb "sum" else "sum")
        else "sum")
      else (lookupKey k fm).getD "sum" := by
  obtain ⟨-, -, -, -, -, -, -, -, hfm⟩ := init_fields e w fm eb iw pt dims fb ps m hinit
  unfold resolvedMode lookupD
  rw [hfm]
  by_cases h1 : (iw.isSome ∨ eb.isSome : Prop)
  · rw [if_pos h1, if_pos h1, lookupKey_map_const]
    cases hlk : lookupKey k fb <;> simp [hlk]
  · rw [if_neg h1, if_neg h1]

/-- The model `init` builds for the C4 witness configuration. -/
def c4wmodel : Model := ⟨2, 1, [(1, "mean")], "none", [], [(1, 10)], 1, fun _ _ => [], []⟩

/-- C4 (amended) at concrete inputs: legacy mode `"mean"` with
`ignore_weight=True` gives feature 1 the mode `"mean"`. -/
theorem C4_witness :
    init 2 1 [] (some "mean") (some true) "none" [] [(1, 10)] zeroParams = .ok c4wmodel ∧
    resolvedMode c4wmodel 1 = "mean" := by
  refine ⟨rfl, ?_⟩
  have h := C4_amended 2 1 [] (some "mean") (some true) "none" [] [(1, 10)]
    zeroParams c4wmodel rfl 1
  simpa using h

/-- C5: for a positive bucket count `b`, the remapped row index
`torch.remainder(v, b)` computed in `forward` is the canonical non-negative
modulo of `v` by `b`: it is non-negative, lies strictly below `b`, and is
congruent to `v` modulo `b` — for every integer `v`, negative or larger than
`b` included. -/
theorem C5_remap_canonical (v : Int) (b : Nat) (hb : 0 < b) :
    0 ≤ remap v b ∧ remap v b < (b : Int) ∧ (b : Int) ∣ (v - remap v b) := by
  have hb' : (b : Int) ≠ 0 := by exact_mod_cast hb.ne'
  refine ⟨Int.emod_nonneg v hb', Int.emod_lt_of_pos v (by exact_mod_cast hb), ?_⟩
  refine ⟨v / (b : Int), ?_⟩
  have := Int.ediv_add_emod v (b : Int)
  unfold remap
  omega

/-- C5 at a concrete input: `-7 mod 3 = 2`, a valid row index. -/
theorem C5_witness :
    0 < 3 ∧ (0 ≤ remap (-7) 3 ∧ remap (-7) 3 < (3 : Int) ∧
      (3 : Int) ∣ (-7 - remap (-7) 3)) :=
  ⟨by decide, C5_remap_canonical (-7) 3 (by decide)⟩

/-! ## Claims C6 and C10 -/

/-- Two optional per-feature inputs agree on everything `forward` reads for a
feature of the given mode: same values and offsets, and same weights when (and
only required when) the mode is exactly `"sum"`. -/
def agreeUpToWeights (mode : String) (a b : Option FeatInput) : Bool :=
  match a, b with
  | some x, some y =>
    decide (x.values = y.values) && decide (x.offsets = y.offsets) &&
      (!(decide (mode = "sum")) || decide (x.weights = y.weights))
  | none, none => true
  | _, _ => false

/-- `exceptMap` only depends on the function's values on the list. -/
theorem exceptMap_congr {α β : Type} (f g : α → Except String β) (l : List α)
    (h : ∀ a ∈ l, f a = g a) : exceptMap f l = exceptMap g l := by
  induction l with
  | nil => rfl
  | cons a as ih =>
    simp only [exceptMap]
    rw [h a (List.mem_cons_self a as), ih (fun x hx => h x (List.mem_cons_of_mem a hx))]

/-- The per-feature loop body gives the same result on two batches that agree
up to (ignored) weights on that feature. -/
theorem featureOutput_congr (m : Model) (f1 f2 : Batch) (kb : Int × Nat)
    (h : agreeUpToWeights (resolvedMode m kb.1) (lookupKey kb.1 f1)
      (lookupKey kb.1 f2) = true) :
    featureOutput m f1 kb = featureOutput m f2 kb := by
  cases h1 : lookupKey kb.1 f1 with
  | none =>
    cases h2 : lookupKey kb.1 f2 with
    | none => simp only [featureOutput, h1, h2]
    | some y => rw [h1, h2] at h; simp [agreeUpToWeights] at h
  | some x =>
    cases h2 : lookupKey kb.1 f2 with
    | none => rw [h1, h2] at h; simp [agreeUpToWeights] at h
    | some y =>
      rw [h1, h2] at h
      simp only [agreeUpToWeights, Bool.and_eq_true, Bool.or_eq_true,
        Bool.not_eq_true', decide_eq_true_eq, decide_eq_false_iff_not] at h
      obtain ⟨⟨hv, ho⟩, hw⟩ := h
      simp only [featureOutput, h1, h2, hv, ho]
      by_cases hs : resolvedMode m kb.1 = "sum"
      · rcases hw with hw | hw
        · exact absurd hs hw
        · rw [hw]
      · simp only [if_neg hs]

/-- C6: `forward` never applies the supplied weights of a feature whose
resolved reduction mode is not exactly `"sum"`: two batches that agree on
values and offsets everywhere, and on weights for the `"sum"`-mode features,
produce identical per-feature embeddings and identical overall output — so for
`"mean"` / `"max"` features the weights may differ arbitrarily. -/
theorem C6_weights_ignored (m : Model) (f1 f2 : Batch)
    (h : ∀ kb ∈ m.feature_buckets,
      agreeUpToWeights (resolvedMode m kb.1) (lookupKey kb.1 f1)
        (lookupKey kb.1 f2) = true) :
    forwardEmbeddings m f1 = forwardEmbeddings m f2 ∧ forward m f1 = forward m f2 := by
  have hE : forwardEmbeddings m f1 = forwardEmbeddings m f2 :=
    exceptMap_congr _ _ _ (fun kb hkb => featureOutput_congr m f1 f2 kb (h kb hkb))
  refine ⟨hE, ?_⟩
  unfold forward forwardPre
  rw [hE]

/-- A model with one feature (id 7, 10 buckets) in `"max"` mode. -/
def c6model : Model :=
  ⟨2, 1, [(7, "max")], "none", [], [(7, 10)], 1, fun _ r => [(r : ℚ), (r : ℚ) + 1], []⟩

/-- A batch for feature 7. -/
def c6batch1 : Batch := [(7, ⟨[3, 13, 5], [0, 2], [1, 1, 2]⟩)]

/-- The same batch with different weights for feature 7. -/
def c6batch2 : Batch := [(7, ⟨[3, 13, 5], [0, 2], [9, 9, 9]⟩)]

/-- C6 at concrete inputs: with feature 7 in `"max"` mode, changing its
weights from `[1, 1, 2]` to `[9, 9, 9]` leaves `forward` unchanged. -/
theorem C6_witness :
    (∀ kb ∈ c6model.feature_buckets,
      agreeUpToWeights (resolvedMode c6model kb.1) (lookupKey kb.1 c6batch1)
        (lookupKey kb.1 c6batch2) = true) ∧
    forward c6model c6batch1 = forward c6model c6batch2 :=
  ⟨by decide, (C6_weights_ignored c6model c6batch1 c6batch2 (by decide)).2⟩

/-- C10: `forward` reads the batch only at the feature ids configured in
`feature_buckets`: two batches whose `(values, offsets, weights)` triples
coincide on every configured id produce identical output, whatever extra
feature ids either batch carries. -/
theorem C10_unconfigured_ignored (m : Model) (f1 f2 : Batch)
    (h : ∀ kb ∈ m.feature_buckets, lookupKey kb.1 f1 = lookupKey kb.1 f2) :
    forward m f1 = forward m f2 := by
  have hE : forwardEmbeddings m f1 = forwardEmbeddings m f2 := by
    apply exceptMap_congr
    intro kb hkb
    simp only [featureOutput, h kb hkb]
  unfold forward forwardPre
  rw [hE]

/-- A batch for feature 7 plus an unconfigured feature 99. -/
def c10batch1 : Batch := [(7, ⟨[3, 13, 5], [0, 2], [1, 1, 2]⟩), (99, ⟨[1], [0], [5]⟩)]

/-- The same batch without the unconfigured feature 99. -/
def c10batch2 : Batch := [(7, ⟨[3, 13, 5], [0, 2], [1, 1, 2]⟩)]

/-- C10 at concrete inputs: feature 99 is absent from `c6model`'s
configuration, so dropping it from the batch leaves `forward` unchanged. -/
theorem C10_witness :
    (∀ kb ∈ c6model.feature_buckets,
      lookupKey kb.1 c10batch1 = lookupKey kb.1 c10batch2) ∧
    forward c6model c10batch1 = forward c6model c10batch2 :=
  ⟨by decide, C10_unconfigured_ignored c6model c10batch1 c10batch2 (by decide)⟩

/-! ## Claims C7 and C9 -/

/-- Adding the zero vector of the right dimension changes nothing. -/
theorem vecAdd_zero_left (v : Vec) (d : Nat) (h : v.length = d) :
    vecAdd (zeroVec d) v = v := by
  induction v generalizing d with
  | nil => simp [vecAdd, zeroVec]
  | cons x xs ih =>
    cases d with
    | zero => simp at h
    | succ n =>
      simp only [zeroVec, List.replicate_succ, vecAdd, List.zipWith_cons_cons, zero_add,
        List.cons.injEq, true_and]
      exact ih n (by simpa using h)

/-- The `"mean"` branch of the combiner on a non-empty tensor list. -/
theorem combine_mean_cons (M : Matrix) (rest : List Matrix) :
    combine "mean" (M :: rest) = .ok (stackReduce vecAdd (M :: rest)) := rfl

/-- C7: when the cross-feature pooling mode is `"mean"`, the combined vector
of each example equals the plain element-wise sum of its per-feature vectors —
not divided by the number of features. -/
theorem C7_mean_pooling_is_sum (dim n : Nat) (Es : List Matrix)
    (hne : Es ≠ [])
    (hlen : ∀ M ∈ Es, M.length = n)
    (hdim : ∀ M ∈ Es, ∀ v ∈ M, v.length = dim) :
    combine "mean" Es =
      .ok ((List.range n).map (fun i =>
        specCrossFeatureSum dim (Es.map (fun M => M.getD i [])))) := by
  obtain ⟨M, rest, rfl⟩ := List.exists_cons_of_ne_nil hne
  have hM : M.length = n := hlen M (List.mem_cons_self _ _)
  rw [combine_mean_cons]
  simp only [stackReduce]
  rw [hM]
  congr 1
  apply List.map_congr_left
  intro i hi
  rw [List.mem_range] at hi
  have hMi : M.getD i [] ∈ M := by
    rw [List.getD_eq_getElem M [] (by omega : i < M.length)]
    exact List.getElem_mem _
  unfold specCrossFeatureSum
  simp only [List.map_cons, List.foldl_cons]
  rw [vecAdd_zero_left (M.getD i []) dim (hdim M (List.mem_cons_self _ _) _ hMi)]
  rw [List.foldl_map]

/-- C7 at concrete inputs: two features, one example, vectors `[1, 2]` and
`[3, 4]`; the `"mean"`-pooled result is their sum `[4, 6]`, not the average
`[2, 3]`. -/
theorem C7_witness :
    (([[[1, 2]], [[3, 4]]] : List Matrix) ≠ [] ∧
      (∀ M ∈ ([[[1, 2]], [[3, 4]]] : List Matrix), M.length = 1) ∧
      (∀ M ∈ ([[[1, 2]], [[3, 4]]] : List Matrix), ∀ v ∈ M, v.length = 2)) ∧
    combine "mean" ([[[1, 2]], [[3, 4]]] : List Matrix) =
      .ok ((List.range 1).map (fun i =>
        specCrossFeatureSum 2 (([[[1, 2]], [[3, 4]]] : List Matrix).map
          (fun M => M.getD i [])))) ∧
    combine "mean" ([[[1, 2]], [[3, 4]]] : List Matrix) = .ok [[4, 6]] ∧
    combine "mean" ([[[1, 2]], [[3, 4]]] : List Matrix) ≠ .ok [[2, 3]] := by
  have h := C7_mean_pooling_is_sum 2 1 [[[1, 2]], [[3, 4]]] (by decide) (by decide)
    (by decide)
  refine ⟨⟨by decide, by decide, by decide⟩, h, ?_, ?_⟩
  · rw [h]
    simp only [List.range_succ, List.range_zero, List.nil_append, List.map_cons,
      List.map_nil, List.getD_cons_zero, specCrossFeatureSum, zeroVec, List.replicate,
      List.foldl_cons, List.foldl_nil, vecAdd, List.zipWith_cons_cons,
      List.zipWith_nil_right, List.zipWith_nil_left]
    norm_num
  · rw [h]
    intro hc
    have hc' := Except.ok.inj hc
    simp only [List.range_succ, List.range_zero, List.nil_append, List.map_cons,
      List.map_nil, List.getD_cons_zero, specCrossFeatureSum, zeroVec, List.replicate,
      List.foldl_cons, List.foldl_nil, vecAdd, List.zipWith_cons_cons,
      List.zipWith_nil_right, List.zipWith_nil_left] at hc'
    norm_num at hc'

/-- C9: for each supported reduction mode, an example whose bag is empty
(equal consecutive offsets) gets the all-zero vector from the bag embedder:
the call succeeds and that example's row is `zeroVec dim` — defined, with no
undefined values (the model is over `ℚ`, so no NaN exists). -/
theorem C9_empty_bag_zero (mode : String) (dim : Nat) (table : Nat → Vec)
    (idx : List Nat) (offsets : List Nat) (ws : Option (List ℚ)) (i : Nat)
    (hmode : mode = "sum" ∨ mode = "mean" ∨ mode = "max")
    (hi : i + 1 < offsets.length)
    (heq : offsets.getD i 0 = offsets.getD (i + 1) 0) :
    ∃ M, embeddingBag mode dim table idx offsets ws = .ok M ∧
      i < M.length ∧ M.getD i [] = zeroVec dim := by
  refine ⟨(bagBounds offsets idx.length).map (fun ab =>
      bagReduce mode dim ((slice idx ab.1 ab.2).map table)
        (ws.map (fun w => slice w ab.1 ab.2))), ?_, ?_, ?_⟩
  · unfold embeddingBag
    rw [if_pos hmode]
  · rw [List.length_map]
    unfold bagBounds
    rw [List.length_zip, List.length_append, List.length_drop]
    simp only [List.length_cons, List.length_nil]
    omega
  · have hlen : i < (bagBounds offsets idx.length).length := by
      unfold bagBounds
      rw [List.length_zip, List.length_append, List.length_drop]
      simp only [List.length_cons, List.length_nil]
      omega
    rw [List.getD_eq_getElem _ [] (by rwa [List.length_map]), List.getElem_map]
    have hb : (bagBounds offsets idx.length)[i] =
        (offsets.get ⟨i, by omega⟩, offsets.get ⟨i + 1, hi⟩) := by
      unfold bagBounds
      rw [List.getElem_zip]
      simp only [List.get_eq_getElem]
      congr 1
      rw [List.getElem_append_left (by rw [List.length_drop]; omega)]
      rw [List.getElem_drop]
      congr 1
      omega
    rw [hb]
    have heq' : offsets.get ⟨i, by omega⟩ = offsets.get ⟨i + 1, hi⟩ := by
      simp only [List.get_eq_getElem]
      rwa [List.getD_eq_getElem _ 0 (by omega : i < offsets.length),
        List.getD_eq_getElem _ 0 hi] at heq
    rw [heq']
    simp [slice, bagReduce]

/-- C9 at concrete inputs: mode `"max"`, offsets `[2, 2, 3]` — the first bag
(example 0) is empty and comes back as the zero vector. -/
theorem C9_witness :
    (("max" : String) = "sum" ∨ ("max" : String) = "mean" ∨ ("max" : String) = "max") ∧
    0 + 1 < ([2, 2, 3] : List Nat).length ∧
    ([2, 2, 3] : List Nat).getD 0 0 = ([2, 2, 3] : List Nat).getD (0 + 1) 0 ∧
    ∃ M, embeddingBag "max" 1 (fun r => [(r : ℚ)]) [5, 9, 4] [2, 2, 3] none = .ok M ∧
      0 < M.length ∧ M.getD 0 [] = zeroVec 1 :=
  ⟨by decide, by decide, by decide,
    C9_empty_bag_zero "max" 1 (fun r => [(r : ℚ)]) [5, 9, 4] [2, 2, 3] none 0
      (by decide) (by decide) (by decide)⟩

/-! ## Claim C8 -/

/-- Scaling a vector keeps its length. -/
theorem vecScale_length (c : ℚ) (v : Vec) : (vecScale c v).length = v.length := by
  simp [vecScale]

/-- Element-wise addition produces the common length. -/
theorem vecAdd_length (u v : Vec) : (vecAdd u v).length = min u.length v.length := by
  simp [vecAdd]

/-- Element-wise maximum produces the common length. -/
theorem vecMax_length (u v : Vec) : (vecMax u v).length = min u.length v.length := by
  simp [vecMax]

/-- The zero vector has its stated dimension. -/
theorem zeroVec_length (d : Nat) : (zeroVec d).length = d := by
  simp [zeroVec]

/-- Folding a length-preserving binary operation over vectors of one dimension
stays in that dimension. -/
theorem length_foldl_op (op : Vec → Vec → Vec)
    (hop : ∀ u v : Vec, (op u v).length = min u.length v.length)
    (l : List Vec) (acc : Vec) (d : Nat)
    (hl : ∀ r ∈ l, r.length = d) (ha : acc.length = d) :
    (l.foldl op acc).length = d := by
  induction l generalizing acc with
  | nil => exact ha
  | cons r rs ih =>
    simp only [List.foldl_cons]
    refine ih _ (fun x hx => hl x (List.mem_cons_of_mem _ hx)) ?_
    rw [hop, ha, hl r (List.mem_cons_self _ _)]
    exact Nat.min_self d

/-- Per-sample scaling keeps each row's dimension. -/
theorem zipWith_vecScale_length (ws : List ℚ) (rows : List Vec) (d : Nat)
    (h : ∀ r ∈ rows, r.length = d) :
    ∀ x ∈ List.zipWith vecScale ws rows, x.length = d := by
  induction ws generalizing rows with
  | nil => intro x hx; simp at hx
  | cons w ws ih =>
    cases rows with
    | nil => intro x hx; simp at hx
    | cons r rs =>
      intro x hx
      rw [List.zipWith_cons_cons] at hx
      rcases List.mem_cons.mp hx with rfl | hx
      · rw [vecScale_length]
        exact h r (List.mem_cons_self _ _)
      · exact ih rs (fun y hy => h y (List.mem_cons_of_mem _ hy)) x hx

/-- A bag reduction of rows of one dimension has that dimension, for every
mode and with or without weights. -/
theorem bagReduce_length (mode : String) (d : Nat) (rows : List Vec)
    (ws : Option (List ℚ)) (h : ∀ r ∈ rows, r.length = d) :
    (bagReduce mode d rows ws).length = d := by
  cases rows with
  | nil => simp [bagReduce, zeroVec]
  | cons r rs =>
    have hr : r.length = d := h r (List.mem_cons_self _ _)
    have hrs : ∀ x ∈ rs, x.length = d := fun x hx => h x (List.mem_cons_of_mem _ hx)
    simp only [bagReduce]
    by_cases h1 : mode = "max"
    · rw [if_pos h1]
      exact length_foldl_op vecMax vecMax_length rs r d hrs hr
    · rw [if_neg h1]
      by_cases h2 : mode = "mean"
      · rw [if_pos h2, vecScale_length]
        exact length_foldl_op vecAdd vecAdd_length (r :: rs) (zeroVec d) d h
          (zeroVec_length d)
      · rw [if_neg h2]
        cases ws with
        | none =>
          exact length_foldl_op vecAdd vecAdd_length (r :: rs) (zeroVec d) d h
            (zeroVec_length d)
        | some w =>
          unfold weightedSum
          exact length_foldl_op vecAdd vecAdd_length _ _ d
            (zipWith_vecScale_length w (r :: rs) d h) (zeroVec_length d)

/-- There are as many bags as offsets. -/
theorem bagBounds_length (offsets : List Nat) (len : Nat) :
    (bagBounds offsets len).length = offsets.length := by
  unfold bagBounds
  rw [List.length_zip, List.length_append, List.length_drop]
  cases offsets with
  | nil => simp
  | cons o rest => simp

/-- A successful embedding-bag call returns one row per offset, each row of
the embedding dimension (given that the table's rows have that dimension). -/
theorem embeddingBag_ok (mode : String) (d : Nat) (table : Nat → Vec)
    (idx offsets : List Nat) (ws : Option (List ℚ)) (M : Matrix)
    (htab : ∀ r, (table r).length = d)
    (h : embeddingBag mode d table idx offsets ws = .ok M) :
    M.length = offsets.length ∧ ∀ v ∈ M, v.length = d := by
  unfold embeddingBag at h
  by_cases hm : (mode = "sum" ∨ mode = "mean" ∨ mode = "max")
  · rw [if_pos hm] at h
    cases h
    constructor
    · rw [List.length_map]
      exact bagBounds_length offsets idx.length
    · intro v hv
      rw [List.mem_map] at hv
      obtain ⟨ab, -, rfl⟩ := hv
      refine bagReduce_length _ _ _ _ ?_
      intro r hr
      rw [List.mem_map] at hr
      obtain ⟨x, -, rfl⟩ := hr
      exact htab x
  · rw [if_neg hm] at h
    cases h

/-- A successful per-feature loop body found the feature in the batch and
returned one row per that feature's offset, each of the embedding
dimension. -/
theorem featureOutput_ok (m : Model) (feats : Batch) (kb : Int × Nat) (M : Matrix)
    (htab : ∀ r, (m.tables kb.1 r).length = m.embedding_dim)
    (h : featureOutput m feats kb = .ok M) :
    ∃ fi, lookupKey kb.1 feats = some fi ∧ M.length = fi.offsets.length ∧
      ∀ v ∈ M, v.length = m.embedding_dim := by
  cases hlk : lookupKey kb.1 feats with
  | none =>
    simp only [featureOutput, hlk] at h
    cases h
  | some fi =>
    simp only [featureOutput, hlk] at h
    refine ⟨fi, rfl, ?_⟩
    cases hE : embeddingBag (resolvedMode m kb.1) m.embedding_dim (m.tables kb.1)
        (fi.values.map fun v => (remap v kb.2).toNat) fi.offsets
        (if resolvedMode m kb.1 = "sum" then some fi.weights else none) with
    | error e => rw [hE] at h; simp [Except.map] at h
    | ok M0 =>
      rw [hE] at h
      simp only [Except.map, Except.ok.injEq] at h
      subst h
      obtain ⟨hlen, hdim⟩ := embeddingBag_ok _ _ _ _ _ _ _ htab hE
      constructor
      · rw [List.length_map]
        exact hlen
      · intro v hv
        rw [List.mem_map] at hv
        obtain ⟨u, hu, rfl⟩ := hv
        rw [vecScale_length]
        exact hdim u hu

/-- A successful `exceptMap` is a pointwise-successful map. -/
theorem exceptMap_ok_forall2 {α β : Type} (f : α → Except String β) (l : List α)
    (bs : List β) (h : exceptMap f l = .ok bs) :
    List.Forall₂ (fun a b => f a = .ok b) l bs := by
  induction l generalizing bs with
  | nil => cases h; exact List.Forall₂.nil
  | cons a as ih =>
    simp only [exceptMap] at h
    cases hfa : f a with
    | error e => rw [hfa] at h; cases h
    | ok b =>
      rw [hfa] at h
      cases hrest : exceptMap f as with
      | error e => rw [hrest] at h; cases h
      | ok bs' =>
        rw [hrest] at h
        cases h
        exact List.Forall₂.cons hfa (ih bs' hrest)

/-- The `"none"` branch of the combiner on a non-empty tensor list. -/
theorem combine_none_cons (M : Matrix) (rest : List Matrix) :
    combine "none" (M :: rest) = .ok (catRows (M :: rest)) := rfl

/-- C8: with cross-feature pooling `"none"`, the pre-projection output pairs
up positionally with `feature_buckets` (the per-feature embeddings appear in
exactly its key-insertion order), each example's row is the concatenation of
its per-feature vectors in that order, and its width is
`#features * embedding_dim`. `n` is the common number of examples. -/
theorem C8_concat_in_key_order (m : Model) (feats : Batch) (Es : List Matrix) (n : Nat)
    (hpool : m.pooling_type = "none")
    (htab : ∀ k r, (m.tables k r).length = m.embedding_dim)
    (hne : m.feature_buckets ≠ [])
    (hoff : ∀ kb ∈ m.feature_buckets, ∀ fi, lookupKey kb.1 feats = some fi →
      fi.offsets.length = n)
    (hE : forwardEmbeddings m feats = .ok Es) :
    List.Forall₂ (fun kb M => featureOutput m feats kb = .ok M) m.feature_buckets Es ∧
    Es.length = m.feature_buckets.length ∧
    forwardPre m feats =
      .ok ((List.range n).map (fun i => (Es.map (fun M => M.getD i [])).flatten)) ∧
    (∀ i, i < n →
      ((Es.map (fun M => M.getD i [])).flatten).length =
        m.feature_buckets.length * m.embedding_dim) := by
  have hf2 : List.Forall₂ (fun kb M => featureOutput m feats kb = .ok M)
      m.feature_buckets Es := exceptMap_ok_forall2 _ _ _ hE
  have hlen : Es.length = m.feature_buckets.length := hf2.length_eq.symm
  have hmem : ∀ M ∈ Es, M.length = n ∧ ∀ v ∈ M, v.length = m.embedding_dim := by
    intro M hM
    obtain ⟨⟨j, hj⟩, hjE⟩ := List.mem_iff_get.mp hM
    obtain ⟨hl, hget⟩ := List.forall₂_iff_get.mp hf2
    have hjf : j < m.feature_buckets.length := by omega
    have hfo : featureOutput m feats (m.feature_buckets.get ⟨j, hjf⟩) = .ok M := by
      rw [← hjE]
      exact hget j hjf hj
    obtain ⟨fi, hfi, hMlen, hMdim⟩ := featureOutput_ok m feats _ M
      (fun r => htab _ r) hfo
    refine ⟨?_, hMdim⟩
    rw [hMlen]
    exact hoff _ (List.get_mem m.feature_buckets j hjf) fi hfi
  refine ⟨hf2, hlen, ?_, ?_⟩
  · have hEne : Es ≠ [] := by
      rw [← List.length_pos, hlen]
      exact List.length_pos.mpr hne
    obtain ⟨M0, rest, rfl⟩ := List.exists_cons_of_ne_nil hEne
    unfold forwardPre
    rw [hE]
    show combine m.pooling_type (M0 :: rest) = _
    rw [hpool, combine_none_cons]
    simp only [catRows]
    rw [(hmem M0 (List.mem_cons_self _ _)).1]
  · intro i hi
    rw [List.length_flatten, List.map_map]
    have hrep : Es.map (List.length ∘ fun M => M.getD i []) =
        List.replicate Es.length m.embedding_dim := by
      apply List.eq_replicate_iff.mpr
      refine ⟨by simp, ?_⟩
      intro b hb
      rw [List.mem_map] at hb
      obtain ⟨M, hM, rfl⟩ := hb
      obtain ⟨hMn, hMd⟩ := hmem M hM
      have hin : i < M.length := by omega
      simp only [Function.comp_apply]
      rw [List.getD_eq_getElem M [] hin]
      exact hMd _ (List.getElem_mem hin)
    rw [hrep, List.sum_replicate, smul_eq_mul, hlen]

/-- A model with two features (ids 7 and 9, in that key order), embedding
dimension 2, pooling `"none"`.  Its lookup tables send row `r` of feature `k`
to `[r, k]`, so every output coordinate identifies its source. -/
def c8model : Model :=
  ⟨2, 1, [], "none", [], [(7, 10), (9, 4)], 2, fun k r => [(r : ℚ), (k : ℚ)], []⟩

/-- A one-example batch for features 7 and 9. -/
def c8batch : Batch := [(7, ⟨[3, 13], [0], [1, 1]⟩), (9, ⟨[2], [0], [1]⟩)]

/-- C8 at concrete inputs: the per-feature embeddings are `[[6, 14]]` for
feature 7 and `[[2, 9]]` for feature 9, and the pre-projection row is their
concatenation `[6, 14, 2, 9]` — feature 7's segment first, width `2 * 2`. -/
theorem C8_witness :
    c8model.pooling_type = "none" ∧
    (∀ k r, (c8model.tables k r).length = c8model.embedding_dim) ∧
    c8model.feature_buckets ≠ [] ∧
    (∀ kb ∈ c8model.feature_buckets, ∀ fi, lookupKey kb.1 c8batch = some fi →
      fi.offsets.length = 1) ∧
    forwardEmbeddings c8model c8batch = .ok [[[6, 14]], [[2, 9]]] ∧
    forwardPre c8model c8batch =
      .ok ((List.range 1).map (fun i =>
        (([[[6, 14]], [[2, 9]]] : List Matrix).map (fun M => M.getD i [])).flatten)) ∧
    forwardPre c8model c8batch = .ok [[6, 14, 2, 9]] ∧
    (∀ i, i < 1 →
      ((([[[6, 14]], [[2, 9]]] : List Matrix).map (fun M => M.getD i [])).flatten).length
        = c8model.feature_buckets.length * c8model.embedding_dim) := by
  have hE : forwardEmbeddings c8model c8batch = .ok [[[6, 14]], [[2, 9]]] := by
    simp [forwardEmbeddings, exceptMap, featureOutput, embeddingBag, bagBounds,
      bagReduce, weightedSum, slice, remap, resolvedMode, lookupD, lookupKey,
      vecScale, vecAdd, zeroVec, c8model, c8batch, Except.map]
    norm_num
  have h := C8_concat_in_key_order c8model c8batch [[[6, 14]], [[2, 9]]] 1 rfl
    (fun k r => rfl) (by decide) (by decide) hE
  refine ⟨rfl, fun k r => rfl, by decide, by decide, hE, h.2.2.1, ?_, h.2.2.2⟩
  rw [h.2.2.1]
  simp [List.range_succ]

end PytextEmb
